import Mathlib

/-!
Verification of the reader-composition pipeline of the rardecode package
(`reader.go`): the bounded reader (`limitedReader`), the block-chain walker
(`packedFileReader`), and the top-level per-file pipeline (`Reader`).

Byte streams are modelled as `List UInt8`.  A Go `Read(p []byte) (int, error)`
call is modelled as a function from the reader state and the buffer length
`len(p)` to the updated state, the bytes read (whose length is `n`), and an
optional error (`none` models a `nil` error).  Go's sentinel error values
become the closed enumeration `RarError`.
-/

set_option autoImplicit false

namespace Rardecode

/-- The closed enumeration of error values used by `reader.go`
(`io.EOF` plus the four package sentinels declared at the top of the file). -/
inductive RarError where
  | ioEOF
  | errShortFile
  | errInvalidFileBlock
  | errUnexpectedArcEnd
  | errBadFileChecksum
  deriving DecidableEq, Repr

/-- Structure `FileHeader` as declared in `reader.go`.  `time.Time` fields are modelled
as `Nat` (their value is never inspected by the pipeline). -/
structure FileHeader where
  Name : String
  IsDir : Bool
  HostOS : Nat
  Attributes : Int
  PackedSize : Int
  UnPackedSize : Int
  UnKnownSize : Bool
  ModificationTime : Nat
  CreationTime : Nat
  AccessTime : Nat
  Version : Int
  deriving DecidableEq, Repr

/-- The `fileChecksum` capability (`io.Writer` plus `valid()`): we model an
arbitrary implementation by the list of bytes written so far together with an
arbitrary validity predicate over the accumulated stream. -/
structure fileChecksum where
  acc : List UInt8
  validf : List UInt8 → Bool

/-- Method `Write`: append the byte slice to the accumulated stream. -/
def fileChecksum.write (c : fileChecksum) (bs : List UInt8) : fileChecksum :=
  { c with acc := c.acc ++ bs }

/-- Method `valid()`: query the validity of the accumulated stream. -/
def fileChecksum.valid (c : fileChecksum) : Bool :=
  c.validf c.acc

/-- Modelled from the spec: the `decoder` selector handed to the decode layer
is an external collaborator (its implementation is not under `src/`).  The
spec only requires that, once initialized, the decode layer "behave as a byte
source"; we model a selector by the decoded byte stream it will produce and
an optional initialization error ("returning an initialization error if the
selector/parameters are unsupported"). -/
structure decoder where
  out : List UInt8
  initErr : Option RarError
  deriving DecidableEq, Repr

/-- Structure `fileBlockHeader` as declared in `reader.go`: the embedded `FileHeader`
plus the physical-block fields. -/
structure fileBlockHeader where
  first : Bool
  last : Bool
  solid : Bool
  winSize : Nat
  cksum : Option fileChecksum
  decoder : Option decoder
  key : List UInt8
  iv : List UInt8
  fh : FileHeader

/-- Modelled from the spec: a concrete instance of the `fileBlockReader`
capability (its implementations, the per-format archive readers, are not
under `src/`).  It supplies, on demand, the next physical block's header and
raw bytes, and knows whether the archive is solid and the format version:
`cur` is the remaining raw data of the current block and `blocks` the list of
upcoming block records with their raw data.  The multi-volume `reset`
operation is out of scope for the claims and is not modelled. -/
structure BlockSource where
  cur : List UInt8
  blocks : List (fileBlockHeader × List UInt8)
  solid : Bool
  ver : Nat

/-- Reading raw bytes of the current block: at the end of the block the
source reports `io.EOF`. -/
def BlockSource.read (s : BlockSource) (plen : Nat) :
    BlockSource × List UInt8 × Option RarError :=
  match s.cur with
  | [] => (s, [], some RarError.ioEOF)
  | _ :: _ => ({ s with cur := s.cur.drop plen }, s.cur.take plen, none)

/-- Method `next()`: advance to the next file block, or report exhaustion
(`io.EOF`, modelled as `none`). -/
def BlockSource.next (s : BlockSource) : Option (fileBlockHeader × BlockSource) :=
  match s.blocks with
  | [] => none
  | (h, d) :: rest => some (h, { s with cur := d, blocks := rest })

/-- Method `isSolid()`: is the archive solid. -/
def BlockSource.isSolid (s : BlockSource) : Bool := s.solid

/-- Method `version()`: current archive format version. -/
def BlockSource.version (s : BlockSource) : Nat := s.ver

/-- Type `bytes.Reader` (standard library): reads from a byte slice and reports
`io.EOF` once the slice is exhausted. -/
structure bytesReader where
  data : List UInt8

/-- Method `bytes.Reader.Read`. -/
def bytesReader.Read (b : bytesReader) (plen : Nat) :
    bytesReader × List UInt8 × Option RarError :=
  match b.data with
  | [] => (b, [], some RarError.ioEOF)
  | _ :: _ => (⟨b.data.drop plen⟩, b.data.take plen, none)

/-- Structure `limitedReader` (`reader.go` lines 33-37), generic over the inner reader
state exactly as the Go struct is generic over `io.Reader`. -/
structure limitedReader (σ : Type) where
  r : σ
  n : Int
  shortErr : RarError

/-- Method `limitedReader.Read` (`reader.go` lines 39-52).  `rd` is the `Read`
method of the inner reader. -/
def limitedReader.Read {σ : Type}
    (rd : σ → Nat → σ × List UInt8 × Option RarError)
    (l : limitedReader σ) (plen : Nat) :
    limitedReader σ × List UInt8 × Option RarError :=
  if l.n ≤ 0 then (l, [], some RarError.ioEOF)
  else
    let plen' := if (plen : Int) > l.n then l.n.toNat else plen
    match rd l.r plen' with
    | (r', bs, e) =>
      let n' : Int := l.n - bs.length
      let l' : limitedReader σ := ⟨r', n', l.shortErr⟩
      if e = some RarError.ioEOF ∧ 0 < n' then (l', bs, some l.shortErr)
      else (l', bs, e)

/-- Constructor `limitReader` (`reader.go` lines 57-59). -/
def limitReader {σ : Type} (r : σ) (n : Int) (err : RarError) : limitedReader σ :=
  ⟨r, n, err⟩

/-- Structure `packedFileReader` (`reader.go` lines 110-113): the block source and the
current file header (`none` models the nil pointer). -/
structure packedFileReader where
  r : BlockSource
  h : Option fileBlockHeader

/-- The dereference `f.h.Name` performed by `nextBlockInFile`; the source
only calls it with a non-nil current header, so the `none` branch is
unreachable at every call site. -/
def packedFileReader.curName (f : packedFileReader) : String :=
  match f.h with
  | some ch => ch.fh.Name
  | none => ""

/-- Method `packedFileReader.nextBlockInFile` (`reader.go` lines 118-132).  The
mutated receiver is returned alongside the error: on failure the current
header `h` is left unchanged (the source assigns `f.h` only after the
checks), though a successfully fetched-but-rejected block has still been
consumed from the source. -/
def packedFileReader.nextBlockInFile (f : packedFileReader) :
    packedFileReader × Option RarError :=
  match BlockSource.next f.r with
  | none => (f, some RarError.errUnexpectedArcEnd)
  | some (h, r') =>
    if h.first || h.fh.Name != f.curName then
      ({ f with r := r' }, some RarError.errInvalidFileBlock)
    else
      ({ r := r', h := some h }, none)

/-- The skip loop at the start of `packedFileReader.next` (`reader.go` lines
136-143), written with explicit fuel; each successful `nextBlockInFile`
consumes one entry of `blocks`, so `blocks.length + 1` fuel always suffices
and the fuel-exhausted base case is unreachable from `skipToLast`. -/
def skipToLastFuel : Nat → packedFileReader → packedFileReader × Option RarError
  | 0, f => (f, some RarError.errUnexpectedArcEnd)
  | fuel + 1, f =>
    match f.h with
    | none => (f, none)
    | some ch =>
      if ch.last then (f, none)
      else
        match f.nextBlockInFile with
        | (f', some e) => (f', some e)
        | (f', none) => skipToLastFuel fuel f'

/-- Skip to the last block of the current file (the `for !f.h.last` loop of
`packedFileReader.next`). -/
def packedFileReader.skipToLast (f : packedFileReader) :
    packedFileReader × Option RarError :=
  skipToLastFuel (f.r.blocks.length + 1) f

/-- Method `packedFileReader.next` (`reader.go` lines 135-153).  On a source error
the source's `next` returns a nil header, so `h` becomes `none`; on the
missing-first-flag failure `h` has already been assigned the fetched
header, exactly as in the source. -/
def packedFileReader.next (f : packedFileReader) :
    packedFileReader × Except RarError fileBlockHeader :=
  match f.skipToLast with
  | (f1, some e) => (f1, Except.error e)
  | (f1, none) =>
    match BlockSource.next f1.r with
    | none => ({ f1 with h := none }, Except.error RarError.ioEOF)
    | some (h, r') =>
      if !h.first then ({ r := r', h := some h }, Except.error RarError.errInvalidFileBlock)
      else ({ r := r', h := some h }, Except.ok h)

/-- The test `f.h == nil || f.h.last` (`reader.go` line 162). -/
def packedFileReader.atLast (f : packedFileReader) : Bool :=
  match f.h with
  | none => true
  | some h => h.last

/-- Method `packedFileReader.Read` (`reader.go` lines 156-171), written with
explicit fuel for the `for err == io.EOF` loop: each loop iteration runs a
successful `nextBlockInFile`, which consumes one entry of `blocks`, so
`blocks.length + 1` fuel always suffices and the fuel-exhausted base case is
unreachable from `packedFileReader.Read`. -/
def pfReadFuel : Nat → packedFileReader → Nat → packedFileReader × List UInt8 × Option RarError
  | 0, f, _ => (f, [], some RarError.ioEOF)
  | fuel + 1, f, plen =>
    match BlockSource.read f.r plen with
    | (r', bs, none) => ({ f with r := r' }, bs, none)
    | (r', bs, some e) =>
      let f1 : packedFileReader := { f with r := r' }
      if e = RarError.ioEOF then
        if 0 < bs.length then (f1, bs, none)
        else if f1.atLast then (f1, [], some RarError.ioEOF)
        else
          match f1.nextBlockInFile with
          | (f2, some e2) => (f2, [], some e2)
          | (f2, none) => pfReadFuel fuel f2 plen
      else (f1, bs, some e)

/-- Method `packedFileReader.Read`: read the packed data of the current file,
transparently advancing across block boundaries. -/
def packedFileReader.Read (f : packedFileReader) (plen : Nat) :
    packedFileReader × List UInt8 × Option RarError :=
  pfReadFuel (f.r.blocks.length + 1) f plen

/-- The dynamic chain of readers assembled by `Reader.Next` and referenced by
the field `Reader.r`.  `packed` and `decode` stand for the aliased pointers
`&r.pr` and `&r.dr`; the wrapping layers carry their own mutable state (the
remaining limit of a `limitedReader`). -/
inductive ChainReader where
  | bytesR (b : bytesReader)
  | packed
  | decode
  | aes (inner : ChainReader) (key iv : List UInt8)
  | limited (inner : ChainReader) (n : Int)
  | tee (inner : ChainReader)

/-- Modelled from the spec: the decode layer (`decodeReader`, whose
implementation is not under `src/`) is initialized with the active reader,
the decoder selector, the window size, and the reset-dictionary flag, and
thereafter behaves as a byte source; `out` is the remaining decoded byte
stream (supplied by the modelled selector). -/
structure decodeReader where
  inner : ChainReader
  dec : Option decoder
  winSize : Nat
  resetDict : Bool
  out : List UInt8

/-- Modelled from the spec: `decodeReader.init` records its arguments and
resets the output stream, failing when the selector is unsupported. -/
def decodeReader.init (_d : decodeReader) (r : ChainReader) (dec : decoder)
    (winSize : Nat) (reset : Bool) : Except RarError decodeReader :=
  match dec.initErr with
  | some e => Except.error e
  | none => Except.ok { inner := r, dec := some dec, winSize := winSize,
                        resetDict := reset, out := dec.out }

/-- Modelled from the spec: reading the decode layer pops from its decoded
output stream and reports `io.EOF` at its end. -/
def decodeReader.Read (d : decodeReader) (plen : Nat) :
    decodeReader × List UInt8 × Option RarError :=
  match d.out with
  | [] => (d, [], some RarError.ioEOF)
  | _ :: _ => ({ d with out := d.out.drop plen }, d.out.take plen, none)

/-- Modelled from the spec: the decrypt layer is an external collaborator
producing plaintext from ciphertext under `key`/`iv`.  No claim depends on
the cipher's byte transformation, which is therefore the identity here. -/
def aesDecrypt (_key _iv : List UInt8) (bs : List UInt8) : List UInt8 := bs

/-- The mutable state shared by the chain's aliased components: the packed
file reader `r.pr`, the decode reader `r.dr`, and the checksum object
referenced both by the tee writer and by `r.cksum`. -/
structure Core where
  pr : packedFileReader
  dr : decodeReader
  cksum : Option fileChecksum

/-- Write the bytes read to the checksum sink, as `io.TeeReader` does. -/
def teeWrite (c : Option fileChecksum) (bs : List UInt8) : Option fileChecksum :=
  match c with
  | none => none
  | some ck => some (ck.write bs)

/-- Reading through the assembled chain (`r.r.Read(p)`), threading the shared
mutable state.  The `limited` case mirrors `limitedReader.Read` (lines
39-52, instantiated by `Reader.Next` with `errShortFile`), the `tee` case
`io.TeeReader` (which writes to the sink only when `n > 0`). -/
def chainRead : ChainReader → Core → Nat → ChainReader × Core × List UInt8 × Option RarError
  | ChainReader.bytesR br, c, plen =>
    match br.Read plen with
    | (br', bs, e) => (ChainReader.bytesR br', c, bs, e)
  | ChainReader.packed, c, plen =>
    match c.pr.Read plen with
    | (pr', bs, e) => (ChainReader.packed, { c with pr := pr' }, bs, e)
  | ChainReader.decode, c, plen =>
    match c.dr.Read plen with
    | (dr', bs, e) => (ChainReader.decode, { c with dr := dr' }, bs, e)
  | ChainReader.aes inner key iv, c, plen =>
    match chainRead inner c plen with
    | (inner', c', bs, e) => (ChainReader.aes inner' key iv, c', aesDecrypt key iv bs, e)
  | ChainReader.limited inner n, c, plen =>
    if n ≤ 0 then (ChainReader.limited inner n, c, [], some RarError.ioEOF)
    else
      let plen' := if (plen : Int) > n then n.toNat else plen
      match chainRead inner c plen' with
      | (inner', c', bs, e) =>
        let n' : Int := n - bs.length
        if e = some RarError.ioEOF ∧ 0 < n' then
          (ChainReader.limited inner' n', c', bs, some RarError.errShortFile)
        else (ChainReader.limited inner' n', c', bs, e)
  | ChainReader.tee inner, c, plen =>
    match chainRead inner c plen with
    | (inner', c', bs, e) =>
      if 0 < bs.length then (ChainReader.tee inner', { c' with cksum := teeWrite c'.cksum bs }, bs, e)
      else (ChainReader.tee inner', c', bs, e)

/-- Structure `Reader` (`reader.go` lines 174-180). -/
structure Reader where
  r : ChainReader
  pr : packedFileReader
  dr : decodeReader
  cksum : Option fileChecksum
  solidr : Bool

/-- The test `r.cksum != nil && !r.cksum.valid()` (`reader.go` line 185). -/
def cksumInvalid (c : Option fileChecksum) : Bool :=
  match c with
  | none => false
  | some ck => !ck.valid

/-- Method `Reader.Read` (`reader.go` lines 183-189). -/
def Reader.Read (r : Reader) (plen : Nat) : Reader × List UInt8 × Option RarError :=
  match chainRead r.r ⟨r.pr, r.dr, r.cksum⟩ plen with
  | (rr', c', bs, e) =>
    let r' : Reader := { r with r := rr', pr := c'.pr, dr := c'.dr, cksum := c'.cksum }
    if e = some RarError.ioEOF ∧ cksumInvalid c'.cksum then
      (r', bs, some RarError.errBadFileChecksum)
    else (r', bs, e)

/-- Events recording the order in which `Reader.Next` performs its
side-effecting steps: draining the pending solid stream (with the number of
bytes discarded), advancing the block-chain walker (`r.pr.next()`), and
initializing the decode layer (`r.dr.init`). -/
inductive Ev where
  | drained (n : Nat)
  | walkerAdvance
  | decodeInit
  deriving DecidableEq, Repr

/-- The tail of `Reader.Next` (`reader.go` lines 223-233): the size bound,
the checksum assignment and tee, and the returned copy of the file header. -/
def Reader.finishNext (r : Reader) (rr : ChainReader) (h : fileBlockHeader)
    (tr : List Ev) : Reader × Except RarError FileHeader × List Ev :=
  let rr1 := if 0 ≤ h.fh.UnPackedSize ∧ h.fh.UnKnownSize = false then
      ChainReader.limited rr h.fh.UnPackedSize
    else rr
  let r1 := { r with cksum := h.cksum }
  let rr2 := match h.cksum with
    | some _ => ChainReader.tee rr1
    | none => rr1
  ({ r1 with r := rr2 }, Except.ok h.fh, tr)

/-- Method `Reader.Next` (`reader.go` lines 192-234).  The pending solid stream
`r.solidr` is, whenever set, the alias `&r.dr`, so it is modelled by the
flag `solidr` and draining it (`io.Copy(ioutil.Discard, r.solidr)`) reads
the decode reader to exhaustion, discarding `r.dr.out`. -/
def Reader.Next (r0 : Reader) : Reader × Except RarError FileHeader × List Ev :=
  let dtr : List Ev := if r0.solidr then [Ev.drained r0.dr.out.length] else []
  let r1 : Reader := if r0.solidr then { r0 with dr := { r0.dr with out := [] } } else r0
  match r1.pr.next with
  | (pr', Except.error e) => ({ r1 with pr := pr' }, Except.error e, dtr ++ [Ev.walkerAdvance])
  | (pr', Except.ok h) =>
    let r2 : Reader := { r1 with pr := pr', solidr := false }
    let rr0 := ChainReader.packed
    let rr1 := if 0 < h.key.length ∧ 0 < h.iv.length then ChainReader.aes rr0 h.key h.iv else rr0
    match h.decoder with
    | none => r2.finishNext rr1 h (dtr ++ [Ev.walkerAdvance])
    | some dec =>
      match r2.dr.init rr1 dec h.winSize (!h.solid) with
      | Except.error e => (r2, Except.error e, dtr ++ [Ev.walkerAdvance, Ev.decodeInit])
      | Except.ok dr' =>
        let r3 : Reader := { r2 with dr := dr' }
        let r4 : Reader := if r3.pr.r.isSolid then { r3 with solidr := true } else r3
        r4.finishNext ChainReader.decode h (dtr ++ [Ev.walkerAdvance, Ev.decodeInit])

/-- Method `Reader.init` (`reader.go` lines 236-239) applied to the zero `Reader`
that `NewReader` allocates: initial reads come from `bytes.NewReader(nil)`,
no checksum is attached, and no solid stream is pending. -/
def Reader.init (fbr : BlockSource) : Reader :=
  { r := ChainReader.bytesR ⟨[]⟩,
    pr := ⟨fbr, none⟩,
    dr := ⟨ChainReader.bytesR ⟨[]⟩, none, 0, false, []⟩,
    cksum := none,
    solidr := false }

/-- A caller reading a stream to exhaustion (as `io.ReadAll`/`io.Copy` do):
repeatedly call the given `Read` with buffer length `b`, accumulating the
bytes delivered, until an error terminates the stream; `fuel` bounds the
number of calls, `none` meaning the bound was reached first. -/
def readToEnd {σ : Type} (rd : σ → Nat → σ × List UInt8 × Option RarError)
    (b : Nat) : Nat → σ → Option (List UInt8 × RarError)
  | 0, _ => none
  | fuel + 1, s =>
    match rd s b with
    | (_, bs, some e) => some (bs, e)
    | (s', bs, none) =>
      match readToEnd rd b fuel s' with
      | none => none
      | some (rest, e) => some (bs ++ rest, e)

/-- The upcoming blocks properly continue the current file's chain: unless
the current header already has `last` set, the list must begin with a
record that is not `first`, carries the same name, and in turn continues
the chain. -/
def chainOK : fileBlockHeader → List (fileBlockHeader × List UInt8) → Bool
  | h, [] => h.last
  | h, (h', _) :: rest => h.last || (!h'.first && (h'.fh.Name == h.fh.Name) && chainOK h' rest)

/-- The concatenated payloads of the remaining blocks of the current file's
chain (not counting the current block's own remaining data). -/
def chainData : fileBlockHeader → List (fileBlockHeader × List UInt8) → List UInt8
  | _, [] => []
  | h, (h', d) :: rest => if h.last then [] else d ++ chainData h' rest

/-- The number of upcoming blocks belonging to the current file's chain. -/
def chainLen : fileBlockHeader → List (fileBlockHeader × List UInt8) → Nat
  | _, [] => 0
  | h, (h', _) :: rest => if h.last then 0 else chainLen h' rest + 1

/-- The current-block data after skipping to the last block of the chain. -/
def chainLastD : fileBlockHeader → List UInt8 → List (fileBlockHeader × List UInt8) → List UInt8
  | _, cur, [] => cur
  | h, cur, (h', d) :: rest => if h.last then cur else chainLastD h' d rest

/-- The header of the last block of the chain. -/
def chainLastH : fileBlockHeader → List (fileBlockHeader × List UInt8) → fileBlockHeader
  | h, [] => h
  | h, (h', _) :: rest => if h.last then h else chainLastH h' rest

/-- Does the assembled chain contain a size-limiting layer? -/
def hasLimit : ChainReader → Bool
  | ChainReader.limited _ _ => true
  | ChainReader.tee inner => hasLimit inner
  | ChainReader.aes inner _ _ => hasLimit inner
  | _ => false

/-- A concrete logical file header used to instantiate theorems. -/
def sampleFH (nm : String) : FileHeader :=
  ⟨nm, false, 0, 0, 0, 0, false, 0, 0, 0, 0⟩

/-- A concrete block header (no checksum, no decoder, no encryption) used to
instantiate theorems. -/
def sampleBH (nm : String) (first last : Bool) : fileBlockHeader :=
  ⟨first, last, false, 0, none, none, [], [], sampleFH nm⟩

/-- An exhausted block source. -/
def emptySource : BlockSource := ⟨[], [], false, 0⟩

/-- A freshly initialized packed file reader (no current header). -/
def pr0 : packedFileReader := ⟨emptySource, none⟩

/-- The zero-value decode reader. -/
def dr0 : decodeReader := ⟨ChainReader.bytesR ⟨[]⟩, none, 0, false, []⟩

/-!  ### Claim C2: the bounded reader  -/

/-- Claim C2: for every bounded reader constructed with limit `L` and
designated short error `e` over an inner source of length `S`: reading it to
exhaustion (with any positive buffer size) delivers exactly `min(L, S)`
bytes, namely the first `L` bytes of the source; if `S < L` the designated
short-file error terminates the stream instead of end-of-stream, and if
`S ≥ L` plain end-of-stream does; and any read when the remaining limit is
zero returns zero bytes and end-of-stream. -/
theorem c2_limitedReader_spec (data : List UInt8) (L : Int) (e : RarError) (b : Nat)
    (hL : 0 ≤ L) (hb : 1 ≤ b) (fuel : Nat) (hfuel : data.length < fuel) :
    readToEnd (limitedReader.Read bytesReader.Read) b fuel (limitReader (⟨data⟩ : bytesReader) L e)
        = some (data.take L.toNat,
                if (data.length : Int) < L then e else RarError.ioEOF)
      ∧ (data.take L.toNat).length = min L.toNat data.length
      ∧ (∀ (l : limitedReader bytesReader) (plen : Nat), l.n = 0 →
          limitedReader.Read bytesReader.Read l plen = (l, [], some RarError.ioEOF)) := by
  refine ⟨?_, by simp, ?_⟩
  · induction fuel generalizing data L with
    | zero => omega
    | succ n ih =>
      by_cases hL0 : L ≤ 0
      · have hL0' : L = 0 := le_antisymm hL0 hL
        subst hL0'
        rw [readToEnd]
        rw [show limitedReader.Read bytesReader.Read (limitReader (⟨data⟩ : bytesReader) 0 e) b
              = (limitReader (⟨data⟩ : bytesReader) 0 e, [], some RarError.ioEOF) by
            rw [limitedReader.Read]; simp [limitReader]]
        have h1 : ¬((data.length : Int) < 0) := by omega
        simp [h1]
      · push_neg at hL0
        set plen' := if (b : Int) > L then L.toNat else b with hplen'
        have hplen'L : (plen' : Int) ≤ L := by
          rw [hplen']
          by_cases hbL : (b : Int) > L
          · rw [if_pos hbL]; omega
          · rw [if_neg hbL]; omega
        have hplen'pos : 1 ≤ plen' := by
          rw [hplen']
          by_cases hbL : (b : Int) > L
          · rw [if_pos hbL]; omega
          · rw [if_neg hbL]; omega
        cases data with
        | nil =>
          rw [readToEnd]
          rw [show limitedReader.Read bytesReader.Read (limitReader (⟨[]⟩ : bytesReader) L e) b
                = (⟨⟨[]⟩, L, e⟩, [], some e) by
              rw [limitedReader.Read]
              simp only [limitReader]
              rw [if_neg (by omega)]
              simp [bytesReader.Read, hL0]]
          simp only [List.take_nil, List.length_nil, Nat.cast_zero, if_pos hL0]
        | cons d ds =>
          rw [readToEnd]
          rw [show limitedReader.Read bytesReader.Read (limitReader (⟨d :: ds⟩ : bytesReader) L e) b
                = (⟨⟨(d :: ds).drop plen'⟩, L - ((d :: ds).take plen').length, e⟩,
                   (d :: ds).take plen', none) by
              rw [limitedReader.Read]
              simp only [limitReader]
              rw [if_neg (by omega)]
              simp only [← hplen']
              rw [bytesReader.Read]
              simp]
          set data := d :: ds with hdata
          have hdlen : 1 ≤ data.length := by rw [hdata]; simp
          set t := (data.take plen').length with ht
          have ht' : t = min plen' data.length := by rw [ht, List.length_take]
          have htle : (t : Int) ≤ L := by omega
          have hrec := ih (data.drop plen') (L - t) (by omega)
            (by simp only [List.length_drop]; omega)
          rw [show limitReader (⟨data.drop plen'⟩ : bytesReader) (L - ↑t) e
                = ⟨⟨data.drop plen'⟩, L - ↑t, e⟩ from rfl] at hrec
          dsimp only
          rw [hrec]
          dsimp only
          simp only [Option.some.injEq, Prod.mk.injEq]
          constructor
          · -- bytes: take plen' data ++ take (L - t).toNat (drop plen' data) = take L.toNat data
            rcases Nat.lt_or_ge data.length plen' with hcase | hcase
            · have h1 : data.take plen' = data := List.take_of_length_le (by omega)
              have h2 : data.drop plen' = [] := List.drop_eq_nil_of_le (by omega)
              have h3 : data.take L.toNat = data := List.take_of_length_le (by omega)
              rw [h1, h2, h3]; simp
            · have ht2 : t = plen' := by omega
              have h4 : L.toNat = plen' + (L - (t : Int)).toNat := by omega
              rw [h4, List.take_add, ht2]
          · -- error: if (drop).length < L - t ↔ if data.length < L
            have h5 : ((data.drop plen').length : Int) = (data.length : Int) - t := by
              simp only [List.length_drop]; omega
            by_cases h6 : (data.length : Int) < L
            · rw [if_pos (by omega), if_pos h6]
            · rw [if_neg (by omega), if_neg h6]
  · intro l plen hn
    rw [limitedReader.Read, if_pos (by omega)]

/-- Witness for C2 at a concrete input: source `[1, 2, 3]`, limit `2`,
buffer size `1`. -/
theorem c2_witness :
    ((0 : Int) ≤ 2 ∧ 1 ≤ 1 ∧ List.length [(1 : UInt8), 2, 3] < 4) ∧
    (readToEnd (limitedReader.Read bytesReader.Read) 1 4
        (limitReader (⟨[1, 2, 3]⟩ : bytesReader) 2 RarError.errShortFile)
        = some (List.take (2 : Int).toNat [(1 : UInt8), 2, 3],
            if (List.length [(1 : UInt8), 2, 3] : Int) < 2 then RarError.errShortFile
            else RarError.ioEOF)
      ∧ (List.take (2 : Int).toNat [(1 : UInt8), 2, 3]).length
          = min (2 : Int).toNat (List.length [(1 : UInt8), 2, 3])
      ∧ (∀ (l : limitedReader bytesReader) (plen : Nat), l.n = 0 →
          limitedReader.Read bytesReader.Read l plen = (l, [], some RarError.ioEOF))) :=
  ⟨⟨by decide, by decide, by decide⟩,
   c2_limitedReader_spec [1, 2, 3] 2 RarError.errShortFile 1 (by decide) (by decide) 4 (by decide)⟩

/-!  ### Claims C7 and C8: failures of advance-within-file  -/

/-- Claim C7: if the freshly fetched block record has its `first` flag set,
or its name differs from the current file's name, advance-within-file fails
with the structural invalid-file-block error and the walker's current record
is left unchanged (the rejected block has been consumed from the source, but
`h` still holds the old record). -/
theorem c7_chain_violation (so : Bool) (v : Nat) (cur d : List UInt8)
    (ch h' : fileBlockHeader) (rest : List (fileBlockHeader × List UInt8))
    (hbad : h'.first = true ∨ h'.fh.Name ≠ ch.fh.Name) :
    packedFileReader.nextBlockInFile ⟨⟨cur, (h', d) :: rest, so, v⟩, some ch⟩
      = (⟨⟨d, rest, so, v⟩, some ch⟩, some RarError.errInvalidFileBlock) := by
  rcases hbad with hb | hb
  · simp [packedFileReader.nextBlockInFile, BlockSource.next, packedFileReader.curName, hb]
  · simp [packedFileReader.nextBlockInFile, BlockSource.next, packedFileReader.curName,
      bne_iff_ne, hb]

/-- Witness for C7 at a concrete input: a second block named `b.txt` inside
the chain of `a.txt`. -/
theorem c7_witness :
    ((sampleBH "b.txt" false false).first = true
      ∨ (sampleBH "b.txt" false false).fh.Name ≠ (sampleBH "a.txt" true false).fh.Name) ∧
    packedFileReader.nextBlockInFile
        ⟨⟨[], [(sampleBH "b.txt" false false, [7])], false, 0⟩, some (sampleBH "a.txt" true false)⟩
      = (⟨⟨[7], [], false, 0⟩, some (sampleBH "a.txt" true false)⟩,
         some RarError.errInvalidFileBlock) :=
  ⟨Or.inr (by decide),
   c7_chain_violation false 0 [] [7] (sampleBH "a.txt" true false) (sampleBH "b.txt" false false)
     [] (Or.inr (by decide))⟩

/-- Claim C8: advance-within-file while the current file's chain is still
open fails with the unexpected-end-of-archive error (not plain
end-of-stream) when the block source is exhausted. -/
theorem c8_truncation (so : Bool) (v : Nat) (cur : List UInt8) (ch : fileBlockHeader)
    (_hopen : ch.last = false) :
    packedFileReader.nextBlockInFile ⟨⟨cur, [], so, v⟩, some ch⟩
      = (⟨⟨cur, [], so, v⟩, some ch⟩, some RarError.errUnexpectedArcEnd) := rfl

/-- Witness for C8 at a concrete input. -/
theorem c8_witness :
    (sampleBH "a.txt" true false).last = false ∧
    packedFileReader.nextBlockInFile ⟨⟨[9], [], false, 0⟩, some (sampleBH "a.txt" true false)⟩
      = (⟨⟨[9], [], false, 0⟩, some (sampleBH "a.txt" true false)⟩,
         some RarError.errUnexpectedArcEnd) :=
  ⟨rfl, c8_truncation false 0 [9] (sampleBH "a.txt" true false) rfl⟩

/-!  ### Claim C6: advance to the next file  -/

/-- The skip loop of `packedFileReader.next`: with a well-formed chain it
lands on the chain's last block, leaving the source positioned after it. -/
theorem skipToLast_chain (so : Bool) (v : Nat) :
    ∀ (blocks : List (fileBlockHeader × List UInt8)) (h : fileBlockHeader) (cur : List UInt8),
      chainOK h blocks = true →
      packedFileReader.skipToLast ⟨⟨cur, blocks, so, v⟩, some h⟩
        = (⟨⟨chainLastD h cur blocks, blocks.drop (chainLen h blocks), so, v⟩,
            some (chainLastH h blocks)⟩, none) := by
  intro blocks
  induction blocks with
  | nil =>
    intro h cur hok
    have hlast : h.last = true := by simpa [chainOK] using hok
    simp [packedFileReader.skipToLast, skipToLastFuel, hlast, chainLastD, chainLen, chainLastH]
  | cons bd rest ih =>
    obtain ⟨h', d⟩ := bd
    intro h cur hok
    cases hlast : h.last with
    | true =>
      simp [packedFileReader.skipToLast, skipToLastFuel, hlast, chainLastD, chainLen, chainLastH]
    | false =>
      rw [chainOK, hlast] at hok
      simp only [Bool.false_or, Bool.and_eq_true, Bool.not_eq_true', beq_iff_eq] at hok
      obtain ⟨⟨hfirst, hname⟩, hchain⟩ := hok
      have hstep : packedFileReader.skipToLast ⟨⟨cur, (h', d) :: rest, so, v⟩, some h⟩
          = packedFileReader.skipToLast ⟨⟨d, rest, so, v⟩, some h'⟩ := by
        rw [packedFileReader.skipToLast, packedFileReader.skipToLast]
        rw [show (((h', d) :: rest).length + 1) = (rest.length + 1) + 1 by simp]
        rw [skipToLastFuel]
        simp [hlast, packedFileReader.nextBlockInFile, BlockSource.next,
          packedFileReader.curName, hfirst, hname]
      rw [hstep, ih h' d hchain]
      simp [chainLastD, chainLen, chainLastH, hlast]

/-- Claim C6: advance-to-next-file with a current record and a well-formed
chain ahead: the walker skips to the chain's last block, then fetches the
next record; plain end-of-stream is propagated unchanged if the source has
no more entries; the structural invalid-file-block error is returned if the
fetched record's `first` flag is not set; otherwise the record is returned
and becomes the new current file. -/
theorem c6_next_characterization (so : Bool) (v : Nat) (cur : List UInt8)
    (blocks : List (fileBlockHeader × List UInt8)) (h : fileBlockHeader)
    (hok : chainOK h blocks = true) :
    packedFileReader.next ⟨⟨cur, blocks, so, v⟩, some h⟩
      = match blocks.drop (chainLen h blocks) with
        | [] => (⟨⟨chainLastD h cur blocks, [], so, v⟩, none⟩, Except.error RarError.ioEOF)
        | (h2, d2) :: r2 =>
          if h2.first then (⟨⟨d2, r2, so, v⟩, some h2⟩, Except.ok h2)
          else (⟨⟨d2, r2, so, v⟩, some h2⟩, Except.error RarError.errInvalidFileBlock) := by
  rw [packedFileReader.next, skipToLast_chain so v blocks h cur hok]
  cases hdrop : blocks.drop (chainLen h blocks) with
  | nil => simp [BlockSource.next]
  | cons bd2 r2 =>
    obtain ⟨h2, d2⟩ := bd2
    cases hf : h2.first with
    | true => simp [BlockSource.next, hf]
    | false => simp [BlockSource.next, hf]

/-- Witness for C6 at the spec's three-block scenario (`a.txt` with flags
`(first, not last)`, `(not first, not last)`, `(not first, last)`) followed
by source exhaustion: the skip walks the chain and end-of-stream is
propagated. -/
theorem c6_witness :
    chainOK (sampleBH "a.txt" true false)
        [(sampleBH "a.txt" false false, [4]), (sampleBH "a.txt" false true, [5])] = true ∧
    packedFileReader.next
        ⟨⟨[3], [(sampleBH "a.txt" false false, [4]), (sampleBH "a.txt" false true, [5])],
          false, 0⟩, some (sampleBH "a.txt" true false)⟩
      = match ([(sampleBH "a.txt" false false, [4]), (sampleBH "a.txt" false true, [5])].drop
            (chainLen (sampleBH "a.txt" true false)
              [(sampleBH "a.txt" false false, [4]), (sampleBH "a.txt" false true, [5])])) with
        | [] => (⟨⟨chainLastD (sampleBH "a.txt" true false) [3]
                    [(sampleBH "a.txt" false false, [4]), (sampleBH "a.txt" false true, [5])],
                   [], false, 0⟩, none⟩, Except.error RarError.ioEOF)
        | (h2, d2) :: r2 =>
          if h2.first then (⟨⟨d2, r2, false, 0⟩, some h2⟩, Except.ok h2)
          else (⟨⟨d2, r2, false, 0⟩, some h2⟩, Except.error RarError.errInvalidFileBlock) :=
  ⟨by decide,
   c6_next_characterization false 0 [3]
     [(sampleBH "a.txt" false false, [4]), (sampleBH "a.txt" false true, [5])]
     (sampleBH "a.txt" true false) (by decide)⟩

/-!  ### Claim C1: the packed stream is the concatenation of the chain  -/

/-- One read step while the current block still has data: bytes come from
the current block only. -/
theorem pfRead_data (so : Bool) (v : Nat) (d : UInt8) (ds : List UInt8)
    (blocks : List (fileBlockHeader × List UInt8)) (h : fileBlockHeader) (plen : Nat) :
    packedFileReader.Read ⟨⟨d :: ds, blocks, so, v⟩, some h⟩ plen
      = (⟨⟨(d :: ds).drop plen, blocks, so, v⟩, some h⟩, (d :: ds).take plen, none) := by
  rw [packedFileReader.Read, pfReadFuel]
  simp [BlockSource.read]

/-- One read step at an exhausted current block whose header has `last`
set: end-of-stream for the file. -/
theorem pfRead_empty_last (so : Bool) (v : Nat)
    (blocks : List (fileBlockHeader × List UInt8)) (h : fileBlockHeader) (plen : Nat)
    (hlast : h.last = true) :
    packedFileReader.Read ⟨⟨[], blocks, so, v⟩, some h⟩ plen
      = (⟨⟨[], blocks, so, v⟩, some h⟩, [], some RarError.ioEOF) := by
  rw [packedFileReader.Read, pfReadFuel]
  simp [BlockSource.read, packedFileReader.atLast, hlast]

/-- One read step at an exhausted current block in mid-chain: the walker
advances transparently to the next block of the file and reads on. -/
theorem pfRead_empty_step (so : Bool) (v : Nat) (dd : List UInt8)
    (rest : List (fileBlockHeader × List UInt8)) (h h' : fileBlockHeader) (plen : Nat)
    (hlast : h.last = false) (hfirst : h'.first = false) (hname : h'.fh.Name = h.fh.Name) :
    packedFileReader.Read ⟨⟨[], (h', dd) :: rest, so, v⟩, some h⟩ plen
      = packedFileReader.Read ⟨⟨dd, rest, so, v⟩, some h'⟩ plen := by
  rw [packedFileReader.Read, packedFileReader.Read]
  rw [show (((h', dd) :: rest).length + 1) = (rest.length + 1) + 1 by simp]
  rw [pfReadFuel]
  simp [BlockSource.read, packedFileReader.atLast, hlast, packedFileReader.nextBlockInFile,
    BlockSource.next, packedFileReader.curName, hfirst, hname]

/-- Claim C1: for every logical file whose packed data is split across the
current block (remaining data `cur`) and a well-formed chain of further
blocks, reading the packed-file reader to exhaustion (any positive buffer
size, any sufficient fuel) yields byte-for-byte the concatenation of the
blocks' payloads in chain order — zero-length blocks included — and the
stream terminates with plain end-of-stream only after all payload bytes,
so an empty non-last block is never reported as end-of-stream. -/
theorem c1_packed_read_concat (b : Nat) (hb : 1 ≤ b) (so : Bool) (v : Nat) :
    ∀ (fuel : Nat) (blocks : List (fileBlockHeader × List UInt8))
      (h : fileBlockHeader) (cur : List UInt8),
      chainOK h blocks = true →
      cur.length + (chainData h blocks).length < fuel →
      readToEnd packedFileReader.Read b fuel ⟨⟨cur, blocks, so, v⟩, some h⟩
        = some (cur ++ chainData h blocks, RarError.ioEOF) := by
  intro fuel
  induction fuel with
  | zero => intro blocks h cur hok hf; omega
  | succ n ihf =>
    intro blocks
    induction blocks with
    | nil =>
      intro h cur hok hf
      have hlast : h.last = true := by simpa [chainOK] using hok
      cases cur with
      | nil =>
        rw [readToEnd, pfRead_empty_last so v [] h b hlast]
        simp [chainData]
      | cons c cs =>
        rw [readToEnd, pfRead_data]
        dsimp only
        rw [ihf [] h ((c :: cs).drop b) hok
          (by simp only [List.length_drop, List.length_cons] at hf ⊢; omega)]
        dsimp only
        rw [← List.append_assoc, List.take_append_drop]
    | cons bd rest ihb =>
      obtain ⟨h', dd⟩ := bd
      intro h cur hok hf
      cases hlast : h.last with
      | true =>
        cases cur with
        | nil =>
          rw [readToEnd, pfRead_empty_last so v _ h b hlast]
          simp [chainData, hlast]
        | cons c cs =>
          rw [readToEnd, pfRead_data]
          dsimp only
          rw [ihf ((h', dd) :: rest) h ((c :: cs).drop b) hok
            (by simp only [List.length_drop, List.length_cons] at hf ⊢; omega)]
          dsimp only
          rw [← List.append_assoc, List.take_append_drop]
      | false =>
        rw [chainOK, hlast] at hok
        simp only [Bool.false_or, Bool.and_eq_true, Bool.not_eq_true', beq_iff_eq] at hok
        obtain ⟨⟨hfirst, hname⟩, hchain⟩ := hok
        cases cur with
        | nil =>
          have hcong : readToEnd packedFileReader.Read b (n + 1)
                (⟨⟨[], (h', dd) :: rest, so, v⟩, some h⟩ : packedFileReader)
              = readToEnd packedFileReader.Read b (n + 1)
                (⟨⟨dd, rest, so, v⟩, some h'⟩ : packedFileReader) := by
            rw [readToEnd, readToEnd, pfRead_empty_step so v dd rest h h' b hlast hfirst hname]
          have hcd : chainData h ((h', dd) :: rest) = dd ++ chainData h' rest := by
            simp [chainData, hlast]
          rw [hcong, ihb h' dd hchain
            (by rw [hcd] at hf
                simp only [List.length_append, List.length_nil] at hf ⊢
                omega)]
          rw [hcd]
          simp
        | cons c cs =>
          rw [readToEnd, pfRead_data]
          dsimp only
          rw [ihf ((h', dd) :: rest) h ((c :: cs).drop b)
            (by rw [chainOK, hlast]
                simp only [Bool.false_or, Bool.and_eq_true, Bool.not_eq_true', beq_iff_eq]
                exact ⟨⟨hfirst, hname⟩, hchain⟩)
            (by simp only [List.length_drop, List.length_cons] at hf ⊢; omega)]
          dsimp only
          rw [← List.append_assoc, List.take_append_drop]

/-- Witness for C1 at a concrete input: a three-block chain whose middle
block is empty, read with buffer size `1`. -/
theorem c1_witness :
    (1 ≤ 1
      ∧ chainOK (sampleBH "a.txt" true false)
          [(sampleBH "a.txt" false false, []), (sampleBH "a.txt" false true, [3, 4])] = true
      ∧ List.length [(1 : UInt8), 2]
          + (chainData (sampleBH "a.txt" true false)
              [(sampleBH "a.txt" false false, []), (sampleBH "a.txt" false true, [3, 4])]).length
          < 9) ∧
    readToEnd packedFileReader.Read 1 9
        ⟨⟨[1, 2], [(sampleBH "a.txt" false false, []), (sampleBH "a.txt" false true, [3, 4])],
          false, 0⟩, some (sampleBH "a.txt" true false)⟩
      = some ([1, 2] ++ chainData (sampleBH "a.txt" true false)
          [(sampleBH "a.txt" false false, []), (sampleBH "a.txt" false true, [3, 4])],
          RarError.ioEOF) :=
  ⟨⟨by decide, by decide, by decide⟩,
   c1_packed_read_concat 1 (by decide) false 0 9
     [(sampleBH "a.txt" false false, []), (sampleBH "a.txt" false true, [3, 4])]
     (sampleBH "a.txt" true false) [1, 2] (by decide) (by decide)⟩

/-!  ### Claim C10: reads before the first advance  -/

/-- Claim C10: immediately after construction (before any advance), every
read of the current file returns zero bytes and plain end-of-stream — in
particular never the bad-checksum error, since no checksum sink is attached
yet — for every block source and every buffer size. -/
theorem c10_initial_read_eof (fbr : BlockSource) (plen : Nat) :
    Reader.Read (Reader.init fbr) plen = (Reader.init fbr, [], some RarError.ioEOF) := rfl

/-!  ### Claim C4: the checksum tee at end-of-stream  -/

/-- Lemma: `BlockSource.read` reports either no error or plain end-of-stream. -/
theorem BlockSource_read_err (s : BlockSource) (plen : Nat) :
    (BlockSource.read s plen).2.2 = none ∨ (BlockSource.read s plen).2.2 = some RarError.ioEOF := by
  cases hc : s.cur <;> simp [BlockSource.read, hc]

/-- The packed-file reader never produces the bad-checksum error. -/
theorem pfReadFuel_no_bad :
    ∀ (fuel : Nat) (f : packedFileReader) (plen : Nat),
      (pfReadFuel fuel f plen).2.2 ≠ some RarError.errBadFileChecksum := by
  intro fuel
  induction fuel with
  | zero => intro f plen; simp [pfReadFuel]
  | succ n ih =>
    intro f plen
    obtain ⟨⟨cur, blocks, so, v⟩, oh⟩ := f
    cases cur with
    | cons c cs => simp [pfReadFuel, BlockSource.read]
    | nil =>
      cases oh with
      | none => simp [pfReadFuel, BlockSource.read, packedFileReader.atLast]
      | some h =>
        cases hlast : h.last with
        | true => simp [pfReadFuel, BlockSource.read, packedFileReader.atLast, hlast]
        | false =>
          cases blocks with
          | nil =>
            simp [pfReadFuel, BlockSource.read, packedFileReader.atLast, hlast,
              packedFileReader.nextBlockInFile, BlockSource.next]
          | cons bd rest =>
            obtain ⟨h', dd⟩ := bd
            cases hcond : (h'.first || (h'.fh.Name != h.fh.Name)) with
            | true =>
              simp [pfReadFuel, BlockSource.read, packedFileReader.atLast, hlast,
                packedFileReader.nextBlockInFile, BlockSource.next,
                packedFileReader.curName, hcond]
            | false =>
              simp [pfReadFuel, BlockSource.read, packedFileReader.atLast, hlast,
                packedFileReader.nextBlockInFile, BlockSource.next,
                packedFileReader.curName, hcond, ih]

/-- The assembled chain never produces the bad-checksum error itself: that
error originates only in `Reader.Read`. -/
theorem chainRead_no_bad :
    ∀ (rr : ChainReader) (c : Core) (plen : Nat),
      (chainRead rr c plen).2.2.2 ≠ some RarError.errBadFileChecksum := by
  intro rr
  induction rr with
  | bytesR br =>
    intro c plen
    obtain ⟨data⟩ := br
    cases data <;> simp [chainRead, bytesReader.Read]
  | packed =>
    intro c plen
    have h2 : (c.pr.Read plen).2.2 ≠ some RarError.errBadFileChecksum :=
      pfReadFuel_no_bad (c.pr.r.blocks.length + 1) c.pr plen
    rcases hre : c.pr.Read plen with ⟨pr', bs, e⟩
    rw [hre] at h2
    simp [chainRead, hre]
    simpa using h2
  | decode =>
    intro c plen
    cases hout : c.dr.out <;> simp [chainRead, decodeReader.Read, hout]
  | aes inner key iv ih =>
    intro c plen
    have h2 := ih c plen
    rcases hre : chainRead inner c plen with ⟨inner', c', bs, e⟩
    rw [hre] at h2
    simp [chainRead, hre]
    simpa using h2
  | limited inner nn ih =>
    intro c plen
    simp only [chainRead]
    split
    · simp
    · have h2 := ih c (if (plen : Int) > nn then nn.toNat else plen)
      rcases hre : chainRead inner c (if (plen : Int) > nn then nn.toNat else plen)
        with ⟨inner', c', bs, e⟩
      rw [hre] at h2
      dsimp only
      split
      · simp
      · simpa using h2
  | tee inner ih =>
    intro c plen
    have h2 := ih c plen
    rcases hre : chainRead inner c plen with ⟨inner', c', bs, e⟩
    rw [hre] at h2
    simp only [chainRead, hre]
    split
    · simpa using h2
    · simpa using h2

/-- Claim C4: when the assembled chain reports end-of-stream and the
attached checksum sink (as updated by this read's tee writes) is invalid,
`Reader.Read` returns the distinguished bad-checksum error instead of plain
end-of-stream; the bad-checksum error is returned exactly then — never on a
read at which the chain is not yet exhausted; when the sink is valid (or
absent) plain end-of-stream is returned; and the bytes delivered by the
chain are passed through unchanged, never retracted. -/
theorem c4_read_bad_checksum (r : Reader) (plen : Nat) (rr' : ChainReader) (c' : Core)
    (bs : List UInt8) (e : Option RarError)
    (hc : chainRead r.r ⟨r.pr, r.dr, r.cksum⟩ plen = (rr', c', bs, e)) :
    (Reader.Read r plen).2.1 = bs
    ∧ ((Reader.Read r plen).2.2 = some RarError.errBadFileChecksum
        ↔ e = some RarError.ioEOF ∧ cksumInvalid c'.cksum = true)
    ∧ (e = some RarError.ioEOF → cksumInvalid c'.cksum = false →
        (Reader.Read r plen).2.2 = some RarError.ioEOF) := by
  have hnb : e ≠ some RarError.errBadFileChecksum := by
    have h2 := chainRead_no_bad r.r ⟨r.pr, r.dr, r.cksum⟩ plen
    rw [hc] at h2
    simpa using h2
  simp only [Reader.Read, hc]
  by_cases hcond : e = some RarError.ioEOF ∧ cksumInvalid c'.cksum = true
  · rw [if_pos hcond]
    refine ⟨rfl, ?_, ?_⟩
    · simp [hcond]
    · intro h1 h2
      rw [hcond.2] at h2
      cases h2
  · rw [if_neg hcond]
    refine ⟨rfl, ?_, ?_⟩
    · constructor
      · intro hbad; exact absurd hbad hnb
      · intro hh; exact absurd hh hcond
    · intro h1 h2; exact h1

/-- Witness for C4 at a concrete input: an already-exhausted chain with an
attached always-valid checksum sink. -/
theorem c4_witness :
    (chainRead (ChainReader.tee (ChainReader.bytesR ⟨[]⟩))
        ⟨pr0, dr0, some ⟨[], fun l => l.isEmpty⟩⟩ 1
      = (ChainReader.tee (ChainReader.bytesR ⟨[]⟩),
         ⟨pr0, dr0, some ⟨[], fun l => l.isEmpty⟩⟩, [], some RarError.ioEOF)) ∧
    ((Reader.Read ⟨ChainReader.tee (ChainReader.bytesR ⟨[]⟩), pr0, dr0,
          some ⟨[], fun l => l.isEmpty⟩, false⟩ 1).2.1 = []
      ∧ ((Reader.Read ⟨ChainReader.tee (ChainReader.bytesR ⟨[]⟩), pr0, dr0,
            some ⟨[], fun l => l.isEmpty⟩, false⟩ 1).2.2 = some RarError.errBadFileChecksum
          ↔ some RarError.ioEOF = some RarError.ioEOF
            ∧ cksumInvalid (⟨pr0, dr0, some ⟨[], fun l => l.isEmpty⟩⟩ : Core).cksum = true)
      ∧ (some RarError.ioEOF = some RarError.ioEOF →
          cksumInvalid (⟨pr0, dr0, some ⟨[], fun l => l.isEmpty⟩⟩ : Core).cksum = false →
          (Reader.Read ⟨ChainReader.tee (ChainReader.bytesR ⟨[]⟩), pr0, dr0,
            some ⟨[], fun l => l.isEmpty⟩, false⟩ 1).2.2 = some RarError.ioEOF)) :=
  ⟨rfl,
   c4_read_bad_checksum
     ⟨ChainReader.tee (ChainReader.bytesR ⟨[]⟩), pr0, dr0, some ⟨[], fun l => l.isEmpty⟩, false⟩
     1 (ChainReader.tee (ChainReader.bytesR ⟨[]⟩))
     ⟨pr0, dr0, some ⟨[], fun l => l.isEmpty⟩⟩ [] (some RarError.ioEOF) rfl⟩

/-!  ### Claim C3: solid drain before walker advance and decode init  -/

/-- Claim C3: when a pending solid-drain target was remembered from the
previous file, `Reader.Next` first reads that stream fully to exhaustion
(discarding all of its remaining bytes, whose count is `r.dr.out.length`)
strictly before the block-chain walker is advanced, which in turn happens
strictly before any decode-layer initialization for the next file. -/
theorem c3_drain_before_advance (r : Reader) (hs : r.solidr = true) :
    ∃ tl, (Reader.Next r).2.2 = Ev.drained r.dr.out.length :: Ev.walkerAdvance :: tl
      ∧ (tl = [] ∨ tl = [Ev.decodeInit]) := by
  rcases hn : (⟨r.r, r.pr, { r.dr with out := [] }, r.cksum, r.solidr⟩ : Reader).pr.next
    with ⟨pr', res⟩
  cases res with
  | error e =>
    refine ⟨[], ?_, Or.inl rfl⟩
    simp [Reader.Next, hs, hn]
  | ok h =>
    cases hdec : h.decoder with
    | none =>
      refine ⟨[], ?_, Or.inl rfl⟩
      simp [Reader.Next, Reader.finishNext, hs, hn, hdec]
    | some dec =>
      cases hie : dec.initErr with
      | some e2 =>
        refine ⟨[Ev.decodeInit], ?_, Or.inr rfl⟩
        simp [Reader.Next, Reader.finishNext, decodeReader.init, hs, hn, hdec, hie]
      | none =>
        refine ⟨[Ev.decodeInit], ?_, Or.inr rfl⟩
        simp [Reader.Next, Reader.finishNext, decodeReader.init, hs, hn, hdec, hie]

/-- A reader with a pending solid stream of two undelivered bytes. -/
def c3reader : Reader :=
  ⟨ChainReader.bytesR ⟨[]⟩, pr0, ⟨ChainReader.bytesR ⟨[]⟩, none, 0, false, [7, 8]⟩, none, true⟩

/-- Witness for C3 at a concrete input. -/
theorem c3_witness :
    c3reader.solidr = true ∧
    (∃ tl, (Reader.Next c3reader).2.2
        = Ev.drained c3reader.dr.out.length :: Ev.walkerAdvance :: tl
      ∧ (tl = [] ∨ tl = [Ev.decodeInit])) :=
  ⟨rfl, c3_drain_before_advance c3reader rfl⟩

/-!  ### Claim C9: decode-layer initialization on advance  -/

/-- Claim C9: on a successful advance whose new record specifies a decoder
(with a supported selector), the decode layer is initialized with the
current active reader (the packed reader, AES-wrapped when the record is
encrypted), the record's decoder, its window size, and a reset-dictionary
flag that is the negation of the record's `solid` flag; and the resulting
decode stream is remembered as the pending solid-drain target exactly when
the block source reports the archive is solid. -/
theorem c9_decode_init (r : Reader) (pr' : packedFileReader) (h : fileBlockHeader)
    (dec : decoder) (hnext : r.pr.next = (pr', Except.ok h))
    (hdec : h.decoder = some dec) (hinit : dec.initErr = none) :
    (Reader.Next r).1.dr
        = ⟨if 0 < h.key.length ∧ 0 < h.iv.length then
              ChainReader.aes ChainReader.packed h.key h.iv
            else ChainReader.packed,
           some dec, h.winSize, !h.solid, dec.out⟩
    ∧ (Reader.Next r).1.solidr = pr'.r.isSolid
    ∧ (Reader.Next r).2.1 = Except.ok h.fh := by
  cases hsr : r.solidr <;> cases hso : pr'.r.solid <;>
    simp [Reader.Next, Reader.finishNext, decodeReader.init, BlockSource.isSolid,
      hsr, hnext, hdec, hinit, hso]

/-- A block header specifying a decoder (stream `[9]`), solid record flag
set, in a solid archive. -/
def c9hdr : fileBlockHeader :=
  ⟨true, true, true, 3, none, some ⟨[9], none⟩, [], [], sampleFH "c.txt"⟩

/-- A freshly initialized reader over a solid one-block source. -/
def c9reader : Reader := Reader.init ⟨[], [(c9hdr, [1])], true, 0⟩

/-- Witness for C9 at a concrete input. -/
theorem c9_witness :
    (c9reader.pr.next = (⟨⟨[1], [], true, 0⟩, some c9hdr⟩, Except.ok c9hdr)
      ∧ c9hdr.decoder = some ⟨[9], none⟩
      ∧ (⟨[9], none⟩ : decoder).initErr = none) ∧
    ((Reader.Next c9reader).1.dr
        = ⟨if 0 < c9hdr.key.length ∧ 0 < c9hdr.iv.length then
              ChainReader.aes ChainReader.packed c9hdr.key c9hdr.iv
            else ChainReader.packed,
           some ⟨[9], none⟩, c9hdr.winSize, !c9hdr.solid, (⟨[9], none⟩ : decoder).out⟩
      ∧ (Reader.Next c9reader).1.solidr = (⟨⟨[1], [], true, 0⟩, some c9hdr⟩ : packedFileReader).r.isSolid
      ∧ (Reader.Next c9reader).2.1 = Except.ok c9hdr.fh) :=
  ⟨⟨rfl, rfl, rfl⟩,
   c9_decode_init c9reader ⟨⟨[1], [], true, 0⟩, some c9hdr⟩ c9hdr ⟨[9], none⟩ rfl rfl rfl⟩

/-!  ### Claim C5: the size bound on advance (corrected)  -/

/-- A block header with a known (`UnKnownSize = false`) but negative
declared unpacked size. -/
def c5hdr : fileBlockHeader :=
  ⟨true, true, false, 0, none, none, [], [], ⟨"x", false, 0, 0, 0, -1, false, 0, 0, 0, 0⟩⟩

/-- A freshly initialized reader over a one-block source whose header is
`c5hdr`. -/
def c5reader : Reader := Reader.init ⟨[], [(c5hdr, [2])], false, 0⟩

/-- Counterexample to C5 as stated: `c5hdr` has the unknown-size flag
`false`, the advance succeeds, yet no bounded-reader layer is installed in
the assembled chain, because the code additionally requires the declared
unpacked size to be non-negative (`h.UnPackedSize >= 0`) and here it is
`-1`. -/
theorem c5_counterexample :
    c5hdr.fh.UnKnownSize = false
    ∧ (Reader.Next c5reader).2.1 = Except.ok c5hdr.fh
    ∧ hasLimit (Reader.Next c5reader).1.r = false :=
  ⟨rfl, rfl, rfl⟩

/-- Claim C5 (amended): for every file header whose unpacked size is known
(the unknown-size flag is false) *and non-negative*, a successful advance
wraps the active reader with the bounded reader using the declared unpacked
size as the limit (the checksum tee, when present, sits outside it), so
that delivery is capped at the declared size; the designated error of that
layer is the short-file error, returned when the source is exhausted before
the limit is reached (`chainRead`'s `limited` case). -/
theorem c5_limit_wrap (r : Reader) (pr' : packedFileReader) (h : fileBlockHeader)
    (hnext : r.pr.next = (pr', Except.ok h))
    (hsize : 0 ≤ h.fh.UnPackedSize) (hks : h.fh.UnKnownSize = false)
    (hdec : h.decoder = none ∨ ∃ dec, h.decoder = some dec ∧ dec.initErr = none) :
    ∃ inner, (Reader.Next r).1.r
        = (match h.cksum with
           | some _ => ChainReader.tee (ChainReader.limited inner h.fh.UnPackedSize)
           | none => ChainReader.limited inner h.fh.UnPackedSize)
      ∧ (Reader.Next r).2.1 = Except.ok h.fh := by
  rcases hdec with hdec | ⟨dec, hdec, hinit⟩
  · refine ⟨if 0 < h.key.length ∧ 0 < h.iv.length then
        ChainReader.aes ChainReader.packed h.key h.iv else ChainReader.packed, ?_, ?_⟩ <;>
      cases hsr : r.solidr <;> cases hck : h.cksum <;>
        simp [Reader.Next, Reader.finishNext, hsr, hnext, hdec, hck, hsize, hks]
  · refine ⟨ChainReader.decode, ?_, ?_⟩ <;>
      cases hsr : r.solidr <;> cases hck : h.cksum <;> cases hso : pr'.r.solid <;>
        simp [Reader.Next, Reader.finishNext, decodeReader.init, BlockSource.isSolid,
          hsr, hnext, hdec, hinit, hck, hso, hsize, hks]

/-- A block header with a known, non-negative unpacked size `5`. -/
def c5hdrW : fileBlockHeader :=
  ⟨true, true, false, 0, none, none, [], [], ⟨"w", false, 0, 0, 5, 5, false, 0, 0, 0, 0⟩⟩

/-- A freshly initialized reader over a one-block source whose header is
`c5hdrW`. -/
def c5readerW : Reader := Reader.init ⟨[], [(c5hdrW, [1, 2])], false, 0⟩

/-- Witness for the amended C5 at a concrete input. -/
theorem c5_witness :
    (c5readerW.pr.next = (⟨⟨[1, 2], [], false, 0⟩, some c5hdrW⟩, Except.ok c5hdrW)
      ∧ 0 ≤ c5hdrW.fh.UnPackedSize
      ∧ c5hdrW.fh.UnKnownSize = false
      ∧ (c5hdrW.decoder = none ∨ ∃ dec, c5hdrW.decoder = some dec ∧ dec.initErr = none)) ∧
    (∃ inner, (Reader.Next c5readerW).1.r
        = (match c5hdrW.cksum with
           | some _ => ChainReader.tee (ChainReader.limited inner c5hdrW.fh.UnPackedSize)
           | none => ChainReader.limited inner c5hdrW.fh.UnPackedSize)
      ∧ (Reader.Next c5readerW).2.1 = Except.ok c5hdrW.fh) :=
  ⟨⟨rfl, by decide, rfl, Or.inl rfl⟩,
   c5_limit_wrap c5readerW ⟨⟨[1, 2], [], false, 0⟩, some c5hdrW⟩ c5hdrW rfl (by decide) rfl
     (Or.inl rfl)⟩

end Rardecode
